import Mathlib

/-
Shallow embedding of the DocuMind document-intelligence pipeline:
the extraction and interrogation services of `services/gemini.ts`
(`extractPdfMetadata`, `interrogateDocuments`) and the corpus-managing
handlers of the `App` component (`handleFileUpload`, `handleSendMessage`,
`deleteDocument`, `downloadDocument`), over the data model of `types.ts`.
External effects (the reasoning-service calls, the id generator, the clock)
are passed in as explicit inputs; everything else follows the source.
-/

/-- Role of a chat message (the role union of `ChatMessage` in `types.ts`). -/
inductive Role where
  | user
  | assistant
deriving DecidableEq

/-- `ChatMessage` of `types.ts`; the `Date` timestamp is modelled as a numeric tick. -/
structure ChatMessage where
  role : Role
  text : String
  timestamp : Nat
deriving DecidableEq

/-- `ExtractedDocument` of `types.ts`, as it exists at runtime: `id` and
`fileName` are initialized locally by `extractPdfMetadata`, but the trailing
object spread of the parsed response can override them when the response
itself carries those keys; the seven service-supplied fields are copied
verbatim from the parsed JSON response by that spread and are therefore absent
(`none`, JavaScript `undefined`) whenever the response omits them. -/
structure ExtractedDocument where
  id : String
  fileName : String
  sender : Option String
  recipient : Option String
  date : Option String
  summary : Option String
  content : Option String
  topics : Option (List String)
  confidence : Option ℚ
deriving DecidableEq

/-- The recognized keys carried by a parsed service response object, i.e. the
keys the trailing object spread in `extractPdfMetadata` copies onto the
returned document. Because the spread comes after the locally injected values,
a response-supplied `id` or `fileName` key overrides the generated id and the
input file name, so both appear here as well; an absent key is `none`. A
parsed JSON value that is not an object carries no recognized keys and is
represented by the all-`none` value. -/
structure GeminiData where
  id : Option String := none
  fileName : Option String := none
  sender : Option String := none
  recipient : Option String := none
  date : Option String := none
  summary : Option String := none
  content : Option String := none
  topics : Option (List String) := none
  confidence : Option ℚ := none
deriving DecidableEq

/-- The `text` of an extraction-service response, classified by what the parse
step of `extractPdfMetadata` does with it. `empty` models a falsy
`response.text` (absent or the empty string), which the source replaces by the
empty-object literal before parsing, so the parse yields an object with no
fields; `jsonOf d` models a text that `JSON.parse` accepts and whose value
carries recognized fields `d`; `malformed` models a text on which `JSON.parse`
throws. -/
inductive ResponseText where
  | empty
  | jsonOf (d : GeminiData)
  | malformed
deriving DecidableEq

/-- The parse step of `extractPdfMetadata` (`JSON.parse` applied to the response
text, with a falsy text replaced by the empty-object literal): `none` when the
parse throws, otherwise the recognized fields of the parsed value. -/
def parseResponse : ResponseText → Option GeminiData
  | .empty => some {}
  | .jsonOf d => some d
  | .malformed => none

/-- Outcome of the `generateContent` call in `extractPdfMetadata`: the promise
either rejects (network/service error) or resolves with a response text. -/
inductive ServiceCall where
  | failed
  | ok (text : ResponseText)
deriving DecidableEq

/-- Models `crypto.randomUUID()`: the n-th id generated in the session. Only
the freshness (injectivity) of the id stream is relevant to the claims, not the
UUID text, so the stream is modelled as an injective enumeration. -/
def genId (n : Nat) : String := String.mk (List.replicate (n + 1) 'u')

/-- The object literal returned by `extractPdfMetadata` on a successful parse:
the locally injected `id` and `fileName` followed by the spread of the parsed
response, copied verbatim. The spread comes last, so a response that itself
carries an `id` or `fileName` key overrides the locally injected value; every
other field is whatever the response supplied (or absent). -/
def composeDoc (freshId fileName : String) (d : GeminiData) : ExtractedDocument :=
  { id := d.id.getD freshId, fileName := d.fileName.getD fileName,
    sender := d.sender, recipient := d.recipient, date := d.date,
    summary := d.summary, content := d.content, topics := d.topics,
    confidence := d.confidence }

/-- `extractPdfMetadata` of `services/gemini.ts`. `freshId` is the id that
`crypto.randomUUID()` yields for this call (supplied by the session id stream),
`fileName` is `file.name`, and `call` is the outcome of the `generateContent`
request. A rejected call propagates as an error; a response text on which
`JSON.parse` throws is caught and rethrown as the extraction error; otherwise
the document is composed from the parsed fields, with no validation of any
field. -/
def extractPdfMetadata (freshId fileName : String) (call : ServiceCall) :
    Except String ExtractedDocument :=
  match call with
  | .failed => .error "service error"
  | .ok t =>
    match parseResponse t with
    | none => .error "Failed to process document"
    | some d => .ok (composeDoc freshId fileName d)

/-- Whether an extraction attempt with the given service outcome succeeds;
success never depends on the generated id or the file name. -/
def callSucceeds : ServiceCall → Bool
  | .failed => false
  | .ok t => (parseResponse t).isSome

/-- Success of the extraction attempt for one input file (name, service outcome). -/
def extractionSucceeds (f : String × ServiceCall) : Bool := callSucceeds f.2

/-- JavaScript string trim: strips leading and trailing whitespace. -/
def jsTrim (s : String) : String :=
  String.mk (((s.data.dropWhile Char.isWhitespace).reverse.dropWhile
    Char.isWhitespace).reverse)

/-- JavaScript template-literal rendering of a possibly-absent string field: an
absent (undefined) value prints as the literal text undefined. -/
def jsStr : Option String → String
  | some s => s
  | none => "undefined"

/-- The per-document context block built inside `interrogateDocuments` (a
newline separates the bracketed header from the Content part). -/
def docContextBlock (doc : ExtractedDocument) : String :=
  "[Document: " ++ doc.fileName ++ ", Sender: " ++ jsStr doc.sender ++
    ", Recipient: " ++ jsStr doc.recipient ++ ", Date: " ++ jsStr doc.date ++
    "]\nContent: " ++ jsStr doc.content

/-- JavaScript array join: the empty list gives the empty string, a single
element is returned as is, and each further element is preceded by the
separator. -/
def joinSep (sep : String) : List String → String
  | [] => ""
  | [s] => s
  | s :: rest => s ++ sep ++ joinSep sep rest

/-- The fixed block separator used by `interrogateDocuments`. -/
def contextSep : String := "\n\n---\n\n"

/-- The grounding context assembled by `interrogateDocuments`: one block per
document, joined with the fixed separator, in corpus order; no filtering,
re-ranking or truncation. -/
def buildContext (docs : List ExtractedDocument) : String :=
  joinSep contextSep (docs.map docContextBlock)

/-- The fixed fallback answer of `interrogateDocuments`. -/
def fallbackMessage : String :=
  "I couldn\u0027t find any information regarding that query in the provided documents."

/-- The fixed system framing of `interrogateDocuments`, with the assembled
corpus context appended after the CONTEXT header. -/
def systemPromptFor (docs : List ExtractedDocument) : String :=
  "You are a professional assistant analyzing a collection of uploaded documents. \n  Below is the content of all currently uploaded documents. \n  Your job is to answer the user\u0027s questions accurately based ONLY on the provided context. \n  If the user asks \"What did Jane say?\", find all documents where Jane is the sender and synthesize her messages.\n  \n  CONTEXT:\n  "
    ++ buildContext docs

/-- Outcome of the `generateContent` call in `interrogateDocuments`: rejection,
or a response whose `text` may be absent (`none`) or any string, possibly
empty. -/
inductive ChatServiceResult where
  | failed
  | answered (text : Option String)
deriving DecidableEq

/-- `interrogateDocuments` of `services/gemini.ts`. The request carries the
system framing (which embeds the corpus context) and the prior history followed
by the new query; the returned answer is the response text, except that an
absent or empty text is replaced by the fixed fallback message. A rejected call
propagates as an error. -/
def interrogateDocuments (query : String) (docs : List ExtractedDocument)
    (history : List (Role × String)) (svc : ChatServiceResult) :
    Except String String :=
  let _framing := systemPromptFor docs
  let _turns := history ++ [(Role.user, query)]
  match svc with
  | .failed => .error "service failure"
  | .answered t =>
    .ok (match t with
      | none => fallbackMessage
      | some s => if s = "" then fallbackMessage else s)

/-- The React state of the `App` component relevant to the claims: the corpus,
the chat transcript, the query input, the chat-loading flag, the upload
progress pair, and the position of the session in the id stream of
`crypto.randomUUID()`. -/
structure SessionState where
  documents : List ExtractedDocument
  chatMessages : List ChatMessage
  query : String
  isChatLoading : Bool
  progressCurrent : Nat
  progressTotal : Nat
  nextId : Nat
deriving DecidableEq

/-- The initial component state. -/
def initialSession : SessionState :=
  { documents := [], chatMessages := [], query := "", isChatLoading := false,
    progressCurrent := 0, progressTotal := 0, nextId := 0 }

/-- What the extraction loop of `handleFileUpload` produces: the accumulated
`newDocs`, the value of `uploadProgress.current` after each iteration (in
order), its final value, and the advanced id-stream position. `i` is the loop
index, `cur` the progress value on entry, `n` the id-stream position on entry.
On success the loop pushes the document and sets the progress to `i + 1`; on
failure it only logs the error, leaving both untouched. -/
structure BatchResult where
  newDocs : List ExtractedDocument
  currents : List Nat
  current : Nat
  nextId : Nat
deriving DecidableEq

/-- The extraction loop of `handleFileUpload`, one recursive step per file. -/
def runBatch (i cur n : Nat) : List (String × ServiceCall) → BatchResult
  | [] => { newDocs := [], currents := [], current := cur, nextId := n }
  | f :: fs =>
    match extractPdfMetadata (genId n) f.1 f.2 with
    | .ok doc =>
      let r := runBatch (i + 1) (i + 1) (n + 1) fs
      { newDocs := doc :: r.newDocs, currents := (i + 1) :: r.currents,
        current := r.current, nextId := r.nextId }
    | .error _ =>
      let r := runBatch (i + 1) cur n fs
      { newDocs := r.newDocs, currents := cur :: r.currents,
        current := r.current, nextId := r.nextId }

/-- `handleFileUpload` of the `App` component, end-to-end: an empty selection
returns immediately; otherwise progress is reset to 0 of N, the loop runs, and
the successes are appended to the corpus in one final `setDocuments` call.
Per-document errors are caught inside the loop and never escape to the caller. -/
def handleFileUpload (s : SessionState) (files : List (String × ServiceCall)) :
    SessionState :=
  if files.isEmpty then s
  else
    let r := runBatch 0 0 s.nextId files
    { s with documents := s.documents ++ r.newDocs,
             progressCurrent := r.current,
             progressTotal := files.length,
             nextId := r.nextId }

/-- The ordered sequence of states the component exposes while
`handleFileUpload` runs: the state after the initial progress reset, the state
after each loop iteration, and the final state after the single `setDocuments`
append. (The boolean `isProcessing` flag is presentation only and not
modelled.) -/
def uploadStateTrace (s : SessionState) (files : List (String × ServiceCall)) :
    List SessionState :=
  if files.isEmpty then []
  else
    let r := runBatch 0 0 s.nextId files
    let s0 := { s with progressCurrent := 0, progressTotal := files.length }
    (s0 :: r.currents.map (fun c => { s0 with progressCurrent := c })) ++
      [{ s0 with progressCurrent := r.current,
                 documents := s.documents ++ r.newDocs,
                 nextId := r.nextId }]

/-- `handleSendMessage` of the `App` component. `tUser` and `tAsst` are the two
`new Date()` ticks. The guard returns unchanged when the trimmed query is empty
or a chat is already loading. The user turn is appended first; the
interrogation receives the pre-append transcript (the source closes over the
not-yet-updated `chatMessages`); on success the assistant turn is appended, on
failure the error is only logged; the loading flag is cleared either way. -/
def handleSendMessage (s : SessionState) (tUser tAsst : Nat)
    (svc : ChatServiceResult) : SessionState :=
  if jsTrim s.query == "" || s.isChatLoading then s
  else
    let userMsg : ChatMessage := { role := .user, text := s.query, timestamp := tUser }
    let s1 := { s with chatMessages := s.chatMessages ++ [userMsg],
                       query := "", isChatLoading := true }
    match interrogateDocuments s.query s.documents
        (s.chatMessages.map (fun m => (m.role, m.text))) svc with
    | .ok answer =>
      let asstMsg : ChatMessage :=
        { role := .assistant, text := answer, timestamp := tAsst }
      { s1 with chatMessages := s1.chatMessages ++ [asstMsg],
                isChatLoading := false }
    | .error _ => { s1 with isChatLoading := false }

/-- `deleteDocument` of the `App` component: keep exactly the documents whose
id differs from the requested one. -/
def deleteDocument (id : String) (docs : List ExtractedDocument) :
    List ExtractedDocument :=
  docs.filter (fun d => d.id != id)

/-- The text assembled by `downloadDocument` of the `App` component for the
per-document export file. -/
def downloadText (doc : ExtractedDocument) : String :=
  "FILENAME: " ++ doc.fileName ++ "\nSENDER: " ++ jsStr doc.sender ++
    "\nRECIPIENT: " ++ jsStr doc.recipient ++ "\nDATE: " ++ jsStr doc.date ++
    "\nSUMMARY: " ++ jsStr doc.summary ++ "\n\nCONTENT:\n" ++ jsStr doc.content

/-- A corpus-mutating user action: a batch upload or a delete by id. -/
inductive SessionOp where
  | upload (files : List (String × ServiceCall))
  | del (id : String)

/-- Effect of one user action on the component state. -/
def applyOp (s : SessionState) : SessionOp → SessionState
  | .upload files => handleFileUpload s files
  | .del id => { s with documents := deleteDocument id s.documents }

/-- The state reached from the initial state by a sequence of user actions. -/
def applyOps (ops : List SessionOp) : SessionState :=
  ops.foldl applyOp initialSession

/-- A service outcome that does not smuggle an `id` key into the document: the
call fails, or its response does not parse, or the parsed response carries no
`id` key (so the trailing spread leaves the locally generated id in place). -/
def idClean : ServiceCall → Bool
  | .failed => true
  | .ok t =>
    match parseResponse t with
    | none => true
    | some d => d.id.isNone

/-- A user action whose service outcomes are all id-clean (deletes trivially
are). -/
def opClean : SessionOp → Bool
  | .upload files => files.all (fun f => idClean f.2)
  | .del _ => true

/-- Spec-side description of the batch result, used in the refinement claims:
the successful extractions, in input order, each successful one consuming the
next fresh id. -/
def batchSuccesses (n : Nat) : List (String × ServiceCall) → List ExtractedDocument
  | [] => []
  | f :: fs =>
    match extractPdfMetadata (genId n) f.1 f.2 with
    | .ok doc => doc :: batchSuccesses (n + 1) fs
    | .error _ => batchSuccesses n fs

/-- Spec-side contract shape (the words of claim C3): a parsed response object
with the four required fields all present. -/
def conformsToContract (d : GeminiData) : Bool :=
  d.sender.isSome && d.recipient.isSome && d.content.isSome && d.summary.isSome

/-- `needle` occurs verbatim (as a contiguous substring) inside `hay`. -/
def substrOf (needle hay : String) : Prop :=
  ∃ p q : String, hay = p ++ needle ++ q

/-- The id discipline of a session state: corpus ids are pairwise distinct and
all were generated strictly before the current id-stream position. -/
def idsOk (s : SessionState) : Prop :=
  (s.documents.map (fun d => d.id)).Nodup ∧
    ∀ d ∈ s.documents, ∃ k, k < s.nextId ∧ d.id = genId k

/-- A fully populated sample response, used for concrete witnesses. -/
def sampleData : GeminiData :=
  { sender := some "Jane", recipient := some "Bob", date := some "2024-01-02",
    summary := some "A letter about the budget.",
    content := some "Dear Bob, the budget is fine. Jane",
    topics := some ["budget"], confidence := some 1 }

/-- A sample extracted document, used for concrete witnesses. -/
def sampleDoc : ExtractedDocument := composeDoc (genId 0) "letter.pdf" sampleData

/-- A session state with a pending query, used for concrete witnesses. -/
def chatSession : SessionState :=
  { initialSession with query := "Who wrote this?" }

/-- A parsed response that itself carries an `id` key: the trailing spread
copies it over the locally generated id. -/
def dupData : GeminiData := { id := some "dup" }

/-- A sample document whose topics entry uses a letter that occurs nowhere in
the rendered export text, used to test the export round-trip. -/
def exportDoc : ExtractedDocument :=
  { id := genId 0, fileName := "f", sender := some "s", recipient := some "r",
    date := some "d", summary := some "m", content := some "c",
    topics := some ["zzz"], confidence := some 1 }

/-! ### Helper lemmas about the embedded definitions -/

theorem genId_inj {m n : Nat} (h : genId m = genId n) : m = n := by
  have hl := congrArg (fun s => s.data.length) h
  simpa [genId] using hl

theorem substrOf_trans {a b c : String} (h₁ : substrOf a b) (h₂ : substrOf b c) :
    substrOf a c := by
  obtain ⟨p₁, q₁, e₁⟩ := h₁
  obtain ⟨p₂, q₂, e₂⟩ := h₂
  refine ⟨p₂ ++ p₁, q₁ ++ q₂, ?_⟩
  rw [e₂, e₁]
  simp [String.append_assoc]

theorem substrOf_joinSep {α : Type} (sep : String) (f : α → String) :
    ∀ (l : List α) (x : α), x ∈ l → substrOf (f x) (joinSep sep (l.map f))
  | [], x, hx => absurd hx (List.not_mem_nil x)
  | [y], x, hx => by
    have hxy : x = y := by simpa using hx
    subst hxy
    exact ⟨"", "", by simp [joinSep]⟩
  | y :: z :: zs, x, hx => by
    rcases List.mem_cons.mp hx with h | h
    · subst h
      refine ⟨"", sep ++ joinSep sep ((z :: zs).map f), ?_⟩
      simp [joinSep, String.append_assoc]
    · obtain ⟨p, q, e⟩ := substrOf_joinSep sep f (z :: zs) x h
      refine ⟨f y ++ sep ++ p, q, ?_⟩
      simp only [List.map_cons] at e ⊢
      simp [joinSep, e, String.append_assoc]

theorem fileName_substr_block (doc : ExtractedDocument) :
    substrOf doc.fileName (docContextBlock doc) :=
  ⟨"[Document: ", ", Sender: " ++ jsStr doc.sender ++ ", Recipient: " ++
      jsStr doc.recipient ++ ", Date: " ++ jsStr doc.date ++ "]\nContent: " ++
      jsStr doc.content, by simp [docContextBlock, String.append_assoc]⟩

theorem content_substr_block (doc : ExtractedDocument) :
    substrOf (jsStr doc.content) (docContextBlock doc) :=
  ⟨"[Document: " ++ doc.fileName ++ ", Sender: " ++ jsStr doc.sender ++
      ", Recipient: " ++ jsStr doc.recipient ++ ", Date: " ++ jsStr doc.date ++
      "]\nContent: ", "", by simp [docContextBlock, String.append_assoc]⟩

theorem extract_isOk (freshId fileName : String) (call : ServiceCall) :
    (extractPdfMetadata freshId fileName call).isOk = callSucceeds call := by
  cases call with
  | failed => rfl
  | ok t => cases t <;> rfl

theorem extract_ok_elim {freshId fileName : String} {call : ServiceCall}
    {doc : ExtractedDocument}
    (h : extractPdfMetadata freshId fileName call = .ok doc) :
    ∃ t d, call = .ok t ∧ parseResponse t = some d ∧
      doc = composeDoc freshId fileName d := by
  cases call with
  | failed => exact absurd h (by simp [extractPdfMetadata])
  | ok t =>
    cases hp : parseResponse t with
    | none => simp [extractPdfMetadata, hp] at h
    | some d =>
      refine ⟨t, d, rfl, hp, ?_⟩
      simp [extractPdfMetadata, hp] at h
      exact h.symm

theorem succeeds_eq_isOk (freshId : String) (f : String × ServiceCall) :
    extractionSucceeds f = (extractPdfMetadata freshId f.1 f.2).isOk :=
  (extract_isOk freshId f.1 f.2).symm

theorem runBatch_newDocs : ∀ (files : List (String × ServiceCall)) (i cur n : Nat),
    (runBatch i cur n files).newDocs = batchSuccesses n files
  | [], _, _, _ => rfl
  | f :: fs, i, cur, n => by
    cases h : extractPdfMetadata (genId n) f.1 f.2 with
    | ok doc => simp [runBatch, batchSuccesses, h, runBatch_newDocs fs]
    | error e => simp [runBatch, batchSuccesses, h, runBatch_newDocs fs]

theorem runBatch_currents_length :
    ∀ (files : List (String × ServiceCall)) (i cur n : Nat),
    (runBatch i cur n files).currents.length = files.length
  | [], _, _, _ => rfl
  | f :: fs, i, cur, n => by
    cases h : extractPdfMetadata (genId n) f.1 f.2 with
    | ok doc => simp [runBatch, h, runBatch_currents_length fs]
    | error e => simp [runBatch, h, runBatch_currents_length fs]

theorem runBatch_nextId : ∀ (files : List (String × ServiceCall)) (i cur n : Nat),
    (runBatch i cur n files).nextId = n + (batchSuccesses n files).length
  | [], _, _, _ => by simp [runBatch, batchSuccesses]
  | f :: fs, i, cur, n => by
    cases h : extractPdfMetadata (genId n) f.1 f.2 with
    | ok doc =>
      have ih := runBatch_nextId fs (i + 1) (i + 1) (n + 1)
      simp only [runBatch, h, batchSuccesses, List.length_cons]
      rw [ih]
      omega
    | error e =>
      have ih := runBatch_nextId fs (i + 1) cur n
      simp only [runBatch, h, batchSuccesses]
      rw [ih]

theorem batchSuccesses_length_le :
    ∀ (files : List (String × ServiceCall)) (n : Nat),
    (batchSuccesses n files).length ≤ files.length
  | [], _ => Nat.le_refl 0
  | f :: fs, n => by
    cases h : extractPdfMetadata (genId n) f.1 f.2 with
    | ok doc =>
      simp only [batchSuccesses, h, List.length_cons]
      exact Nat.succ_le_succ (batchSuccesses_length_le fs (n + 1))
    | error e =>
      simp only [batchSuccesses, h, List.length_cons]
      exact Nat.le_succ_of_le (batchSuccesses_length_le fs n)

theorem batchSuccesses_length_eq_iff :
    ∀ (files : List (String × ServiceCall)) (n : Nat),
    ((batchSuccesses n files).length = files.length ↔
      ∀ f ∈ files, extractionSucceeds f = true)
  | [], _ => by simp [batchSuccesses]
  | f :: fs, n => by
    cases h : extractPdfMetadata (genId n) f.1 f.2 with
    | ok doc =>
      have hf : extractionSucceeds f = true := by
        rw [succeeds_eq_isOk (genId n), h]
        rfl
      simp [batchSuccesses, h, hf, batchSuccesses_length_eq_iff fs (n + 1)]
    | error e =>
      have hf : extractionSucceeds f = false := by
        rw [succeeds_eq_isOk (genId n), h]
        rfl
      have hle := batchSuccesses_length_le fs n
      constructor
      · intro hlen
        exfalso
        simp only [batchSuccesses, h, List.length_cons] at hlen
        omega
      · intro hall
        have := hall f (List.mem_cons_self f fs)
        rw [hf] at this
        exact absurd this (by simp)

theorem batchSuccesses_ids : ∀ (files : List (String × ServiceCall)) (n : Nat),
    (∀ f ∈ files, idClean f.2 = true) →
    (batchSuccesses n files).map (fun d => d.id) =
      (List.range' n (batchSuccesses n files).length).map genId
  | [], _, _ => rfl
  | f :: fs, n, hclean => by
    have hcf := hclean f (List.mem_cons_self f fs)
    have hcfs : ∀ g ∈ fs, idClean g.2 = true :=
      fun g hg => hclean g (List.mem_cons_of_mem f hg)
    cases h : extractPdfMetadata (genId n) f.1 f.2 with
    | ok doc =>
      obtain ⟨t, d, hc, hp, hdoc⟩ := extract_ok_elim h
      have hdid : d.id = none := by
        rw [hc] at hcf
        simp only [idClean, hp] at hcf
        exact Option.isNone_iff_eq_none.mp hcf
      simp [batchSuccesses, h, hdoc, composeDoc, hdid, List.range'_succ,
        batchSuccesses_ids fs (n + 1) hcfs]
    | error e => simp [batchSuccesses, h, batchSuccesses_ids fs n hcfs]

theorem runBatch_chain : ∀ (files : List (String × ServiceCall)) (i cur n : Nat),
    cur ≤ i → List.Chain' (· ≤ ·) (cur :: (runBatch i cur n files).currents)
  | [], _, _, _, _ => by simp [runBatch]
  | f :: fs, i, cur, n, hci => by
    cases h : extractPdfMetadata (genId n) f.1 f.2 with
    | ok doc =>
      have ih := runBatch_chain fs (i + 1) (i + 1) (n + 1) (Nat.le_refl _)
      simp only [runBatch, h]
      exact List.chain'_cons.mpr ⟨Nat.le_succ_of_le hci, ih⟩
    | error e =>
      have ih := runBatch_chain fs (i + 1) cur n (Nat.le_succ_of_le hci)
      simp only [runBatch, h]
      exact List.chain'_cons.mpr ⟨Nat.le_refl cur, ih⟩

theorem runBatch_current_le : ∀ (files : List (String × ServiceCall)) (i cur n : Nat),
    cur ≤ i → (runBatch i cur n files).current ≤ i + files.length
  | [], i, cur, n, h => by
    simp only [runBatch, List.length_nil]
    omega
  | f :: fs, i, cur, n, hci => by
    cases h : extractPdfMetadata (genId n) f.1 f.2 with
    | ok doc =>
      have ih := runBatch_current_le fs (i + 1) (i + 1) (n + 1) (Nat.le_refl _)
      simp only [runBatch, h, List.length_cons]
      omega
    | error e =>
      have ih := runBatch_current_le fs (i + 1) cur n (Nat.le_succ_of_le hci)
      simp only [runBatch, h, List.length_cons]
      omega

theorem runBatch_current_iff :
    ∀ (fs : List (String × ServiceCall)) (f : String × ServiceCall) (i cur n : Nat),
    cur ≤ i →
    ((runBatch i cur n (f :: fs)).current = i + fs.length + 1 ↔
      extractionSucceeds ((f :: fs).getLast (List.cons_ne_nil f fs)) = true)
  | [], f, i, cur, n, hci => by
    cases h : extractPdfMetadata (genId n) f.1 f.2 with
    | ok doc =>
      have hf : extractionSucceeds f = true := by
        rw [succeeds_eq_isOk (genId n), h]
        rfl
      simp [runBatch, h, hf]
    | error e =>
      have hf : extractionSucceeds f = false := by
        rw [succeeds_eq_isOk (genId n), h]
        rfl
      simp only [runBatch, h, List.length_nil, List.getLast_singleton, hf]
      constructor
      · intro hc
        omega
      · intro hc
        exact absurd hc (by simp)
  | g :: gs, f, i, cur, n, hci => by
    have hlast : (f :: g :: gs).getLast (List.cons_ne_nil f (g :: gs)) =
        (g :: gs).getLast (List.cons_ne_nil g gs) := List.getLast_cons _
    cases h : extractPdfMetadata (genId n) f.1 f.2 with
    | ok doc =>
      have ih := runBatch_current_iff gs g (i + 1) (i + 1) (n + 1) (Nat.le_refl _)
      have harith : i + (g :: gs).length + 1 = (i + 1) + gs.length + 1 := by
        simp only [List.length_cons]
        omega
      simp only [runBatch, h, hlast, harith]
      exact ih
    | error e =>
      have ih := runBatch_current_iff gs g (i + 1) cur n (Nat.le_succ_of_le hci)
      have harith : i + (g :: gs).length + 1 = (i + 1) + gs.length + 1 := by
        simp only [List.length_cons]
        omega
      simp only [runBatch, h, hlast, harith]
      exact ih

theorem deleteDocument_of_absent {docs : List ExtractedDocument} {id : String}
    (h : ∀ d ∈ docs, d.id ≠ id) : deleteDocument id docs = docs :=
  List.filter_eq_self.mpr (fun d hd => by simpa using h d hd)

theorem mem_deleteDocument {docs : List ExtractedDocument} {id : String}
    {e : ExtractedDocument} (he : e ∈ docs) (hne : e.id ≠ id) :
    e ∈ deleteDocument id docs :=
  List.mem_filter.mpr ⟨he, by simpa using hne⟩

theorem not_mem_deleteDocument {docs : List ExtractedDocument} {id : String}
    {e : ExtractedDocument} (he : e.id = id) : e ∉ deleteDocument id docs := by
  intro hmem
  have := (List.mem_filter.mp hmem).2
  simp [he] at this

theorem deleteDocument_length {docs : List ExtractedDocument}
    {a : ExtractedDocument} (hn : (docs.map (fun d => d.id)).Nodup)
    (ha : a ∈ docs) : (deleteDocument a.id docs).length + 1 = docs.length := by
  induction docs with
  | nil => cases ha
  | cons d ds ih =>
    simp only [List.map_cons, List.nodup_cons] at hn
    rcases List.mem_cons.mp ha with rfl | hmem
    · have hall : ∀ e ∈ ds, e.id ≠ a.id := by
        intro e he hcontra
        exact hn.1 (by rw [← hcontra]; exact List.mem_map_of_mem _ he)
      have hds : deleteDocument a.id ds = ds := deleteDocument_of_absent hall
      simp only [deleteDocument, List.filter_cons] at hds ⊢
      simp [hds]
    · have hda : d.id ≠ a.id := by
        intro hcontra
        exact hn.1 (by rw [hcontra]; exact List.mem_map_of_mem _ hmem)
      have hrec := ih hn.2 hmem
      have hkeep : deleteDocument a.id (d :: ds) = d :: deleteDocument a.id ds := by
        simp [deleteDocument, List.filter_cons, hda]
      rw [hkeep, List.length_cons, List.length_cons]
      omega


theorem batchSuccesses_id_bound {files : List (String × ServiceCall)} {n : Nat}
    {d : ExtractedDocument} (hclean : ∀ f ∈ files, idClean f.2 = true)
    (hd : d ∈ batchSuccesses n files) :
    ∃ k, n ≤ k ∧ k < n + (batchSuccesses n files).length ∧ d.id = genId k := by
  have hmem : d.id ∈ (batchSuccesses n files).map (fun d => d.id) :=
    List.mem_map_of_mem _ hd
  rw [batchSuccesses_ids files n hclean] at hmem
  obtain ⟨k, hk, he⟩ := List.mem_map.mp hmem
  have hb := List.mem_range'_1.mp hk
  exact ⟨k, hb.1, hb.2, he.symm⟩

theorem handleFileUpload_documents (s : SessionState)
    (files : List (String × ServiceCall)) (h : files.isEmpty = false) :
    (handleFileUpload s files).documents =
      s.documents ++ batchSuccesses s.nextId files := by
  simp [handleFileUpload, h, runBatch_newDocs]

theorem handleFileUpload_nextId (s : SessionState)
    (files : List (String × ServiceCall)) (h : files.isEmpty = false) :
    (handleFileUpload s files).nextId =
      s.nextId + (batchSuccesses s.nextId files).length := by
  simp [handleFileUpload, h, runBatch_nextId]

theorem handleFileUpload_progressCurrent (s : SessionState)
    (files : List (String × ServiceCall)) (h : files.isEmpty = false) :
    (handleFileUpload s files).progressCurrent =
      (runBatch 0 0 s.nextId files).current := by
  simp [handleFileUpload, h]

theorem handleFileUpload_progressTotal (s : SessionState)
    (files : List (String × ServiceCall)) (h : files.isEmpty = false) :
    (handleFileUpload s files).progressTotal = files.length := by
  simp [handleFileUpload, h]

theorem handleFileUpload_chatMessages (s : SessionState)
    (files : List (String × ServiceCall)) :
    (handleFileUpload s files).chatMessages = s.chatMessages := by
  by_cases h : files.isEmpty <;> simp [handleFileUpload, h]

theorem idsOk_handleFileUpload {s : SessionState} (h : idsOk s)
    (files : List (String × ServiceCall))
    (hclean : ∀ f ∈ files, idClean f.2 = true) :
    idsOk (handleFileUpload s files) := by
  rcases hf : files.isEmpty with hft | hff
  case true =>
    have : handleFileUpload s files = s := by simp [handleFileUpload, hf]
    rw [this]
    exact h
  case false =>
    have hdocs := handleFileUpload_documents s files hf
    have hnext := handleFileUpload_nextId s files hf
    constructor
    · rw [hdocs, List.map_append, List.nodup_append]
      refine ⟨h.1, ?_, ?_⟩
      · rw [batchSuccesses_ids files s.nextId hclean]
        exact (List.nodup_range' _ _ 1 (by norm_num)).map
          (fun a b hab => genId_inj hab)
      · intro x hx hx'
        obtain ⟨d, hd, hdx⟩ := List.mem_map.mp hx
        obtain ⟨k, hk, hkid⟩ := h.2 d hd
        obtain ⟨e, he, hex⟩ := List.mem_map.mp hx'
        obtain ⟨k', hk'1, hk'2, hk'id⟩ := batchSuccesses_id_bound hclean he
        have hgen : genId k = genId k' := by rw [← hkid, ← hk'id, hdx, hex]
        have := genId_inj hgen
        omega
    · intro d hd
      rw [hdocs] at hd
      rcases List.mem_append.mp hd with hold | hnewd
      · obtain ⟨k, hk, hkid⟩ := h.2 d hold
        refine ⟨k, ?_, hkid⟩
        rw [hnext]
        omega
      · obtain ⟨k, hk1, hk2, hkid⟩ := batchSuccesses_id_bound hclean hnewd
        refine ⟨k, ?_, hkid⟩
        rw [hnext]
        omega

theorem idsOk_applyOp {s : SessionState} (h : idsOk s) (op : SessionOp)
    (hclean : opClean op = true) : idsOk (applyOp s op) := by
  cases op with
  | upload files =>
    exact idsOk_handleFileUpload h files
      (fun f hf => List.all_eq_true.mp hclean f hf)
  | del id =>
    constructor
    · have hsub : List.Sublist (deleteDocument id s.documents) s.documents :=
        List.filter_sublist s.documents
      exact h.1.sublist (hsub.map (fun d => d.id))
    · intro d hd
      exact h.2 d (List.mem_filter.mp hd).1

theorem idsOk_applyOps (ops : List SessionOp)
    (hclean : ∀ op ∈ ops, opClean op = true) : idsOk (applyOps ops) := by
  suffices hgen : ∀ (l : List SessionOp), (∀ op ∈ l, opClean op = true) →
      ∀ (s : SessionState), idsOk s → idsOk (l.foldl applyOp s) by
    exact hgen ops hclean initialSession
      ⟨List.nodup_nil, fun d hd => absurd hd (List.not_mem_nil d)⟩
  intro l
  induction l with
  | nil => intro _ s hs; exact hs
  | cons op l ih =>
    intro hcl s hs
    exact ih (fun o ho => hcl o (List.mem_cons_of_mem op ho)) (applyOp s op)
      (idsOk_applyOp hs op (hcl op (List.mem_cons_self op l)))

theorem batchSuccesses_forall₂ :
    ∀ (files : List (String × ServiceCall)) (n : Nat),
    List.Forall₂ (fun (f : String × ServiceCall) (doc : ExtractedDocument) =>
        ∃ t d, f.2 = ServiceCall.ok t ∧ parseResponse t = some d ∧
          ∃ k, doc = composeDoc (genId k) f.1 d)
      (files.filter extractionSucceeds) (batchSuccesses n files)
  | [], _ => by
    simp only [List.filter_nil, batchSuccesses]
    exact List.Forall₂.nil
  | f :: fs, n => by
    cases h : extractPdfMetadata (genId n) f.1 f.2 with
    | ok doc =>
      obtain ⟨t, d, hc, hp, hdoc⟩ := extract_ok_elim h
      have hf : extractionSucceeds f = true := by
        rw [succeeds_eq_isOk (genId n), h]
        rfl
      simp only [batchSuccesses, h, List.filter_cons, hf, if_pos, ite_true]
      exact List.Forall₂.cons ⟨t, d, hc, hp, n, hdoc⟩
        (batchSuccesses_forall₂ fs (n + 1))
    | error e =>
      have hf : extractionSucceeds f = false := by
        rw [succeeds_eq_isOk (genId n), h]
        rfl
      simp only [batchSuccesses, h, List.filter_cons, hf, Bool.false_eq_true,
        if_false, ite_false]
      exact batchSuccesses_forall₂ fs n

/-! ### Claim theorems -/

/-- C1 counterexample: the empty-object response parses successfully, so the
extraction succeeds, yet the returned record has no content and no summary
(both absent), and the batch handler admits it into the corpus unvalidated;
this refutes the claim that a successful extraction always yields non-empty
content and summary and that a record failing that validation never enters the
corpus. -/
theorem claimC1_counterexample :
    extractPdfMetadata (genId 0) "a.pdf" (.ok (.jsonOf {})) =
      .ok (composeDoc (genId 0) "a.pdf" {}) ∧
    (composeDoc (genId 0) "a.pdf" {}).content = none ∧
    (composeDoc (genId 0) "a.pdf" {}).summary = none ∧
    (handleFileUpload initialSession [("a.pdf", .ok (.jsonOf {}))]).documents =
      [composeDoc (genId 0) "a.pdf" {}] :=
  ⟨rfl, rfl, rfl, rfl⟩

/-- C1 amended: for every raw document whose extraction succeeds, the returned
record is the trailing object spread of the parsed response over the locally
injected values: its id is the freshly generated one (from an injective id
stream) and its fileName the input file's name unless the response itself
carries an id or fileName key, which then overrides them; every field of the
parsed response is copied verbatim with no validation, so content and summary
may be absent or empty, and such records are still returned to the corpus. -/
theorem claimC1_amended (freshId fileName : String) (call : ServiceCall)
    (doc : ExtractedDocument)
    (h : extractPdfMetadata freshId fileName call = .ok doc) :
    (∃ t d, call = .ok t ∧ parseResponse t = some d ∧
      doc = composeDoc freshId fileName d ∧
      doc.id = d.id.getD freshId ∧
      doc.fileName = d.fileName.getD fileName ∧
      doc.content = d.content ∧ doc.summary = d.summary) ∧
    Function.Injective genId := by
  obtain ⟨t, d, hc, hp, hdoc⟩ := extract_ok_elim h
  refine ⟨⟨t, d, hc, hp, hdoc, ?_, ?_, ?_, ?_⟩, fun a b hab => genId_inj hab⟩
  · rw [hdoc]
    rfl
  · rw [hdoc]
    rfl
  · rw [hdoc]
    rfl
  · rw [hdoc]
    rfl

/-- C1 witness: the amended theorem applied to a concrete successful
extraction whose response supplies no id or fileName key. -/
theorem claimC1_witness :
    (∃ t d, ServiceCall.ok (.jsonOf sampleData) = ServiceCall.ok t ∧
      parseResponse t = some d ∧
      sampleDoc = composeDoc (genId 0) "letter.pdf" d ∧
      sampleDoc.id = d.id.getD (genId 0) ∧
      sampleDoc.fileName = d.fileName.getD "letter.pdf" ∧
      sampleDoc.content = d.content ∧ sampleDoc.summary = d.summary) ∧
    Function.Injective genId :=
  claimC1_amended (genId 0) "letter.pdf" (.ok (.jsonOf sampleData)) sampleDoc rfl

/-- C2 counterexample: a batch with one document whose extraction fails. After
the attempt completes the counter still reads 0 (it was not incremented), and
at batch completion the counter (0) never equals the total (1); this refutes
the claim that the counter is incremented after every attempt, success or
failure, and reaches the total independently of failures. -/
theorem claimC2_counterexample :
    (runBatch 0 0 0 [("a.pdf", ServiceCall.failed)]).currents = [0] ∧
    (handleFileUpload initialSession
      [("a.pdf", ServiceCall.failed)]).progressCurrent = 0 ∧
    (handleFileUpload initialSession
      [("a.pdf", ServiceCall.failed)]).progressTotal = 1 :=
  ⟨rfl, rfl, rfl⟩

/-- C2 amended: the progress counter is observed exactly once per attempt and
is non-decreasing over the run, but it is updated only when an attempt
succeeds (to that document's position); a failed attempt leaves it unchanged.
At batch completion the counter equals the total iff the final document's
extraction succeeded; in particular it does whenever every extraction
succeeds. -/
theorem claimC2_amended (s : SessionState) (f : String × ServiceCall)
    (fs : List (String × ServiceCall)) :
    (runBatch 0 0 s.nextId (f :: fs)).currents.length = (f :: fs).length ∧
    List.Chain' (· ≤ ·) (0 :: (runBatch 0 0 s.nextId (f :: fs)).currents) ∧
    ((handleFileUpload s (f :: fs)).progressCurrent =
        (handleFileUpload s (f :: fs)).progressTotal ↔
      extractionSucceeds ((f :: fs).getLast (List.cons_ne_nil f fs)) = true) ∧
    ((∀ g ∈ f :: fs, extractionSucceeds g = true) →
      (handleFileUpload s (f :: fs)).progressCurrent =
        (handleFileUpload s (f :: fs)).progressTotal) := by
  have hne : (f :: fs).isEmpty = false := rfl
  have hcur := handleFileUpload_progressCurrent s (f :: fs) hne
  have htot := handleFileUpload_progressTotal s (f :: fs) hne
  have hiff := runBatch_current_iff fs f 0 0 s.nextId (Nat.le_refl 0)
  have harith : 0 + fs.length + 1 = (f :: fs).length := by
    simp only [List.length_cons]
    omega
  rw [harith] at hiff
  refine ⟨runBatch_currents_length (f :: fs) 0 0 s.nextId,
    runBatch_chain (f :: fs) 0 0 s.nextId (Nat.le_refl 0), ?_, ?_⟩
  · rw [hcur, htot]
    exact hiff
  · intro hall
    rw [hcur, htot]
    exact hiff.mpr (hall _ (List.getLast_mem (List.cons_ne_nil f fs)))

/-- C2 witness: the amended theorem applied to a concrete one-document batch
whose extraction succeeds. -/
theorem claimC2_witness :
    (runBatch 0 0 initialSession.nextId
      [("a.pdf", ServiceCall.ok ResponseText.empty)]).currents.length =
        ([("a.pdf", ServiceCall.ok ResponseText.empty)] :
          List (String × ServiceCall)).length ∧
    List.Chain' (· ≤ ·) (0 :: (runBatch 0 0 initialSession.nextId
      [("a.pdf", ServiceCall.ok ResponseText.empty)]).currents) ∧
    ((handleFileUpload initialSession
        [("a.pdf", ServiceCall.ok ResponseText.empty)]).progressCurrent =
      (handleFileUpload initialSession
        [("a.pdf", ServiceCall.ok ResponseText.empty)]).progressTotal ↔
      extractionSucceeds (([("a.pdf", ServiceCall.ok ResponseText.empty)] :
        List (String × ServiceCall)).getLast (List.cons_ne_nil _ _)) = true) ∧
    ((∀ g ∈ [("a.pdf", ServiceCall.ok ResponseText.empty)],
        extractionSucceeds g = true) →
      (handleFileUpload initialSession
        [("a.pdf", ServiceCall.ok ResponseText.empty)]).progressCurrent =
      (handleFileUpload initialSession
        [("a.pdf", ServiceCall.ok ResponseText.empty)]).progressTotal) :=
  claimC2_amended initialSession ("a.pdf", ServiceCall.ok ResponseText.empty) []

/-- C3 counterexample: the empty-object response is parseable JSON but is not
the contract shape (all four required fields are missing), yet the extraction
succeeds instead of failing; this refutes the claim that extraction fails
whenever the response is not parseable as the contract shape. -/
theorem claimC3_counterexample :
    conformsToContract {} = false ∧
    (extractPdfMetadata (genId 0) "a.pdf" (.ok (.jsonOf {}))).isOk = true :=
  ⟨rfl, rfl⟩

/-- C3 amended: extraction fails exactly when the service call itself fails or
when the response text is not parseable as JSON; conformance to the contract
shape is never checked, so a parseable response lacking required fields still
succeeds. Every failure is an error value, so no partial document is returned
on failure. -/
theorem claimC3_amended (freshId fileName : String) (call : ServiceCall) :
    ((extractPdfMetadata freshId fileName call).isOk = callSucceeds call) ∧
    (extractPdfMetadata freshId fileName ServiceCall.failed).isOk = false ∧
    (extractPdfMetadata freshId fileName (.ok .malformed)).isOk = false ∧
    (callSucceeds call = false →
      ∃ e, extractPdfMetadata freshId fileName call = .error e) := by
  refine ⟨extract_isOk freshId fileName call, rfl, rfl, ?_⟩
  intro hfail
  cases hcall : extractPdfMetadata freshId fileName call with
  | ok doc =>
    have hok := extract_isOk freshId fileName call
    rw [hcall, hfail] at hok
    simp [Except.isOk, Except.toBool] at hok
  | error e => exact ⟨e, rfl⟩

/-- C3 witness: the amended theorem applied to a concrete failed call. -/
theorem claimC3_witness :
    ((extractPdfMetadata (genId 0) "a.pdf" ServiceCall.failed).isOk =
      callSucceeds ServiceCall.failed) ∧
    (extractPdfMetadata (genId 0) "a.pdf" ServiceCall.failed).isOk = false ∧
    (extractPdfMetadata (genId 0) "a.pdf" (.ok .malformed)).isOk = false ∧
    (callSucceeds ServiceCall.failed = false →
      ∃ e, extractPdfMetadata (genId 0) "a.pdf" ServiceCall.failed = .error e) :=
  claimC3_amended (genId 0) "a.pdf" ServiceCall.failed

/-- C4: a single document's failure never aborts the batch: the loop records
one progress observation per input document (every document is attempted), the
result list is exactly the successful extractions in input order, its length is
at most the input length and equals it iff every extraction succeeded. The
per-document catch makes the whole run a total function of the outcomes, so no
error is raised to the caller for partial or total failure. -/
theorem claimC4 (i cur n : Nat) (files : List (String × ServiceCall)) :
    (runBatch i cur n files).newDocs = batchSuccesses n files ∧
    (runBatch i cur n files).currents.length = files.length ∧
    (batchSuccesses n files).length ≤ files.length ∧
    ((batchSuccesses n files).length = files.length ↔
      ∀ f ∈ files, extractionSucceeds f = true) :=
  ⟨runBatch_newDocs files i cur n, runBatch_currents_length files i cur n,
    batchSuccesses_length_le files n, batchSuccesses_length_eq_iff files n⟩

/-- C4 witness: the theorem applied to a concrete batch with one success and
one failure. -/
theorem claimC4_witness :
    (runBatch 0 0 0 [("a.pdf", ServiceCall.ok ResponseText.empty),
      ("b.pdf", ServiceCall.failed)]).newDocs =
        batchSuccesses 0 [("a.pdf", ServiceCall.ok ResponseText.empty),
          ("b.pdf", ServiceCall.failed)] ∧
    (runBatch 0 0 0 [("a.pdf", ServiceCall.ok ResponseText.empty),
      ("b.pdf", ServiceCall.failed)]).currents.length =
        ([("a.pdf", ServiceCall.ok ResponseText.empty),
          ("b.pdf", ServiceCall.failed)] : List (String × ServiceCall)).length ∧
    (batchSuccesses 0 [("a.pdf", ServiceCall.ok ResponseText.empty),
      ("b.pdf", ServiceCall.failed)]).length ≤
        ([("a.pdf", ServiceCall.ok ResponseText.empty),
          ("b.pdf", ServiceCall.failed)] : List (String × ServiceCall)).length ∧
    ((batchSuccesses 0 [("a.pdf", ServiceCall.ok ResponseText.empty),
      ("b.pdf", ServiceCall.failed)]).length =
        ([("a.pdf", ServiceCall.ok ResponseText.empty),
          ("b.pdf", ServiceCall.failed)] : List (String × ServiceCall)).length ↔
      ∀ f ∈ [("a.pdf", ServiceCall.ok ResponseText.empty),
        ("b.pdf", ServiceCall.failed)], extractionSucceeds f = true) :=
  claimC4 0 0 0 [("a.pdf", ServiceCall.ok ResponseText.empty),
    ("b.pdf", ServiceCall.failed)]

/-- C5: the context built from the empty corpus is the empty string; for every
corpus it is the join, with the fixed separator and in corpus (insertion)
order, of one block per document, and it contains each document's block,
fileName and supplied content verbatim — no filtering or truncation. -/
theorem claimC5 (docs : List ExtractedDocument) :
    buildContext [] = "" ∧
    buildContext docs = joinSep contextSep (docs.map docContextBlock) ∧
    ∀ doc ∈ docs, substrOf (docContextBlock doc) (buildContext docs) ∧
      substrOf doc.fileName (buildContext docs) ∧
      ∀ c, doc.content = some c → substrOf c (buildContext docs) := by
  refine ⟨rfl, rfl, ?_⟩
  intro doc hdoc
  have hblock := substrOf_joinSep contextSep docContextBlock docs doc hdoc
  refine ⟨hblock, substrOf_trans (fileName_substr_block doc) hblock, ?_⟩
  intro c hc
  have hcb := content_substr_block doc
  rw [hc] at hcb
  exact substrOf_trans (by simpa [jsStr] using hcb) hblock

/-- C5 witness: the theorem applied to a concrete one-document corpus. -/
theorem claimC5_witness :
    buildContext [] = "" ∧
    buildContext [sampleDoc] =
      joinSep contextSep ([sampleDoc].map docContextBlock) ∧
    ∀ doc ∈ [sampleDoc], substrOf (docContextBlock doc) (buildContext [sampleDoc]) ∧
      substrOf doc.fileName (buildContext [sampleDoc]) ∧
      ∀ c, doc.content = some c → substrOf c (buildContext [sampleDoc]) :=
  claimC5 [sampleDoc]

/-- C6: an absent or empty service answer makes the interrogation return the
fixed fallback message, and whatever the service answers the returned answer is
never the empty string. -/
theorem claimC6 (query : String) (docs : List ExtractedDocument)
    (history : List (Role × String)) :
    interrogateDocuments query docs history (.answered none) =
      .ok fallbackMessage ∧
    interrogateDocuments query docs history (.answered (some "")) =
      .ok fallbackMessage ∧
    ∀ t a, interrogateDocuments query docs history (.answered t) = .ok a →
      a ≠ "" := by
  refine ⟨rfl, rfl, ?_⟩
  intro t a h
  have hfb : fallbackMessage ≠ "" := by decide
  cases t with
  | none =>
    simp only [interrogateDocuments, Except.ok.injEq] at h
    rw [← h]
    exact hfb
  | some str =>
    by_cases hs : str = ""
    · simp only [interrogateDocuments, hs, if_true, ite_true, Except.ok.injEq] at h
      rw [← h]
      exact hfb
    · simp only [interrogateDocuments, hs, if_false, ite_false, Except.ok.injEq] at h
      rw [← h]
      exact hs

/-- C6 witness: the theorem applied to a concrete query over the empty corpus. -/
theorem claimC6_witness :
    interrogateDocuments "q" [] [] (.answered none) = .ok fallbackMessage ∧
    interrogateDocuments "q" [] [] (.answered (some "")) = .ok fallbackMessage ∧
    ∀ t a, interrogateDocuments "q" [] [] (.answered t) = .ok a → a ≠ "" :=
  claimC6 "q" [] []

/-- C7: when the interrogation call fails, the handler appends the user's turn
and nothing else to the transcript — no assistant turn, partial or otherwise —
and leaves the corpus unchanged. -/
theorem claimC7 (s : SessionState) (tUser tAsst : Nat)
    (hq : (jsTrim s.query == "") = false) (hl : s.isChatLoading = false) :
    (handleSendMessage s tUser tAsst .failed).chatMessages =
      s.chatMessages ++ [{ role := .user, text := s.query, timestamp := tUser }] ∧
    (handleSendMessage s tUser tAsst .failed).documents = s.documents := by
  constructor <;> simp [handleSendMessage, hq, hl, interrogateDocuments]

/-- C7 witness: the theorem applied to a concrete session with a pending
query. -/
theorem claimC7_witness :
    (handleSendMessage chatSession 5 6 .failed).chatMessages =
      chatSession.chatMessages ++
        [{ role := .user, text := chatSession.query, timestamp := 5 }] ∧
    (handleSendMessage chatSession 5 6 .failed).documents =
      chatSession.documents :=
  claimC7 chatSession 5 6 (by decide) rfl

/-- C8 counterexample: the trailing spread copies a response-supplied id key
over the generated one, so two successful extractions whose responses both
carry the id dup put two documents with the same id into the corpus — the ids
are not pairwise distinct — and deleting that id removes both entries (two,
not exactly one) although a document with that id was present. -/
theorem claimC8_counterexample :
    ((applyOps [SessionOp.upload [("a.pdf", .ok (.jsonOf dupData)),
        ("b.pdf", .ok (.jsonOf dupData))]]).documents.map (fun d => d.id)) =
      ["dup", "dup"] ∧
    ¬ ((applyOps [SessionOp.upload [("a.pdf", .ok (.jsonOf dupData)),
        ("b.pdf", .ok (.jsonOf dupData))]]).documents.map
      (fun d => d.id)).Nodup ∧
    (applyOps [SessionOp.upload [("a.pdf", .ok (.jsonOf dupData)),
        ("b.pdf", .ok (.jsonOf dupData))]]).documents.length = 2 ∧
    (deleteDocument "dup" (applyOps [SessionOp.upload
        [("a.pdf", .ok (.jsonOf dupData)),
          ("b.pdf", .ok (.jsonOf dupData))]]).documents).length = 0 := by
  refine ⟨rfl, by decide, rfl, rfl⟩

/-- C8 amended: `deleteDocument` is a filter, so it removes every document
bearing the requested id and is a no-op when none does. Corpus ids are
pairwise distinct — and a present id is then removed exactly once, with every
other document kept — provided no successful service response smuggles in an
id key of its own (then all ids come from the injective local generator); a
response-supplied id is copied verbatim by the trailing spread and can
collide. -/
theorem claimC8_amended (ops : List SessionOp) (id : String)
    (hclean : ∀ op ∈ ops, opClean op = true) :
    ((applyOps ops).documents.map (fun d => d.id)).Nodup ∧
    (∀ a ∈ (applyOps ops).documents, a.id = id →
      ((deleteDocument id (applyOps ops).documents).length + 1 =
          (applyOps ops).documents.length ∧
        a ∉ deleteDocument id (applyOps ops).documents ∧
        ∀ e ∈ (applyOps ops).documents, e.id ≠ id →
          e ∈ deleteDocument id (applyOps ops).documents)) ∧
    ((∀ d ∈ (applyOps ops).documents, d.id ≠ id) →
      deleteDocument id (applyOps ops).documents = (applyOps ops).documents) := by
  have hids := idsOk_applyOps ops hclean
  refine ⟨hids.1, ?_, fun h => deleteDocument_of_absent h⟩
  intro a ha haid
  refine ⟨?_, ?_, fun e he hne => mem_deleteDocument he hne⟩
  · rw [← haid]
    exact deleteDocument_length hids.1 ha
  · exact not_mem_deleteDocument haid

/-- C8 witness: the amended theorem applied to a concrete id-clean session
that uploads one document, with the deletion id equal to that document's id. -/
theorem claimC8_witness :
    ((applyOps [SessionOp.upload [("letter.pdf",
        ServiceCall.ok (.jsonOf sampleData))]]).documents.map
      (fun d => d.id)).Nodup ∧
    (∀ a ∈ (applyOps [SessionOp.upload [("letter.pdf",
        ServiceCall.ok (.jsonOf sampleData))]]).documents, a.id = genId 0 →
      ((deleteDocument (genId 0) (applyOps [SessionOp.upload [("letter.pdf",
            ServiceCall.ok (.jsonOf sampleData))]]).documents).length + 1 =
          (applyOps [SessionOp.upload [("letter.pdf",
            ServiceCall.ok (.jsonOf sampleData))]]).documents.length ∧
        a ∉ deleteDocument (genId 0) (applyOps [SessionOp.upload [("letter.pdf",
            ServiceCall.ok (.jsonOf sampleData))]]).documents ∧
        ∀ e ∈ (applyOps [SessionOp.upload [("letter.pdf",
            ServiceCall.ok (.jsonOf sampleData))]]).documents, e.id ≠ genId 0 →
          e ∈ deleteDocument (genId 0) (applyOps [SessionOp.upload [("letter.pdf",
            ServiceCall.ok (.jsonOf sampleData))]]).documents)) ∧
    ((∀ d ∈ (applyOps [SessionOp.upload [("letter.pdf",
        ServiceCall.ok (.jsonOf sampleData))]]).documents, d.id ≠ genId 0) →
      deleteDocument (genId 0) (applyOps [SessionOp.upload [("letter.pdf",
          ServiceCall.ok (.jsonOf sampleData))]]).documents =
        (applyOps [SessionOp.upload [("letter.pdf",
          ServiceCall.ok (.jsonOf sampleData))]]).documents) :=
  claimC8_amended [SessionOp.upload [("letter.pdf",
    ServiceCall.ok (.jsonOf sampleData))]] (genId 0) (by decide)

/-- C9 counterexample: the per-document export text renders neither topics nor
confidence: a document whose topics entry is the string zzz produces an export
in which zzz does not occur at all, refuting the claim that every field value
(topics and confidence included) appears in the export. -/
theorem claimC9_counterexample :
    exportDoc.topics = some ["zzz"] ∧
      ¬ substrOf "zzz" (downloadText exportDoc) := by
  refine ⟨rfl, ?_⟩
  rintro ⟨p, q, h⟩
  have hdata := congrArg String.data h
  rw [String.data_append, String.data_append] at hdata
  have hz : 'z' ∈ (downloadText exportDoc).data := by
    rw [hdata]
    refine List.mem_append.mpr (Or.inl ?_)
    refine List.mem_append.mpr (Or.inr ?_)
    decide
  have hnz : 'z' ∉ (downloadText exportDoc).data := by decide
  exact hnz hz

/-- C9 amended: the export block contains the document's fileName and its
rendered sender, recipient, date, summary and content verbatim — in
particular every supplied (non-absent) field value unmodified; topics and
confidence are not part of the export. -/
theorem claimC9_amended (doc : ExtractedDocument) :
    substrOf doc.fileName (downloadText doc) ∧
    (∀ x, doc.sender = some x → substrOf x (downloadText doc)) ∧
    (∀ x, doc.recipient = some x → substrOf x (downloadText doc)) ∧
    (∀ x, doc.date = some x → substrOf x (downloadText doc)) ∧
    (∀ x, doc.summary = some x → substrOf x (downloadText doc)) ∧
    (∀ x, doc.content = some x → substrOf x (downloadText doc)) := by
  have h1 : substrOf doc.fileName (downloadText doc) :=
    ⟨"FILENAME: ", "\nSENDER: " ++ jsStr doc.sender ++ "\nRECIPIENT: " ++
      jsStr doc.recipient ++ "\nDATE: " ++ jsStr doc.date ++ "\nSUMMARY: " ++
      jsStr doc.summary ++ "\n\nCONTENT:\n" ++ jsStr doc.content,
      by simp [downloadText, String.append_assoc]⟩
  have h2 : substrOf (jsStr doc.sender) (downloadText doc) :=
    ⟨"FILENAME: " ++ doc.fileName ++ "\nSENDER: ", "\nRECIPIENT: " ++
      jsStr doc.recipient ++ "\nDATE: " ++ jsStr doc.date ++ "\nSUMMARY: " ++
      jsStr doc.summary ++ "\n\nCONTENT:\n" ++ jsStr doc.content,
      by simp [downloadText, String.append_assoc]⟩
  have h3 : substrOf (jsStr doc.recipient) (downloadText doc) :=
    ⟨"FILENAME: " ++ doc.fileName ++ "\nSENDER: " ++ jsStr doc.sender ++
      "\nRECIPIENT: ", "\nDATE: " ++ jsStr doc.date ++ "\nSUMMARY: " ++
      jsStr doc.summary ++ "\n\nCONTENT:\n" ++ jsStr doc.content,
      by simp [downloadText, String.append_assoc]⟩
  have h4 : substrOf (jsStr doc.date) (downloadText doc) :=
    ⟨"FILENAME: " ++ doc.fileName ++ "\nSENDER: " ++ jsStr doc.sender ++
      "\nRECIPIENT: " ++ jsStr doc.recipient ++ "\nDATE: ", "\nSUMMARY: " ++
      jsStr doc.summary ++ "\n\nCONTENT:\n" ++ jsStr doc.content,
      by simp [downloadText, String.append_assoc]⟩
  have h5 : substrOf (jsStr doc.summary) (downloadText doc) :=
    ⟨"FILENAME: " ++ doc.fileName ++ "\nSENDER: " ++ jsStr doc.sender ++
      "\nRECIPIENT: " ++ jsStr doc.recipient ++ "\nDATE: " ++ jsStr doc.date ++
      "\nSUMMARY: ", "\n\nCONTENT:\n" ++ jsStr doc.content,
      by simp [downloadText, String.append_assoc]⟩
  have h6 : substrOf (jsStr doc.content) (downloadText doc) :=
    ⟨"FILENAME: " ++ doc.fileName ++ "\nSENDER: " ++ jsStr doc.sender ++
      "\nRECIPIENT: " ++ jsStr doc.recipient ++ "\nDATE: " ++ jsStr doc.date ++
      "\nSUMMARY: " ++ jsStr doc.summary ++ "\n\nCONTENT:\n", "",
      by simp [downloadText, String.append_assoc]⟩
  refine ⟨h1, ?_, ?_, ?_, ?_, ?_⟩
  · intro x hx
    rw [hx] at h2
    simpa [jsStr] using h2
  · intro x hx
    rw [hx] at h3
    simpa [jsStr] using h3
  · intro x hx
    rw [hx] at h4
    simpa [jsStr] using h4
  · intro x hx
    rw [hx] at h5
    simpa [jsStr] using h5
  · intro x hx
    rw [hx] at h6
    simpa [jsStr] using h6

/-- C9 witness: the amended theorem applied to a concrete fully populated
document. -/
theorem claimC9_witness :
    substrOf sampleDoc.fileName (downloadText sampleDoc) ∧
    (∀ x, sampleDoc.sender = some x → substrOf x (downloadText sampleDoc)) ∧
    (∀ x, sampleDoc.recipient = some x → substrOf x (downloadText sampleDoc)) ∧
    (∀ x, sampleDoc.date = some x → substrOf x (downloadText sampleDoc)) ∧
    (∀ x, sampleDoc.summary = some x → substrOf x (downloadText sampleDoc)) ∧
    (∀ x, sampleDoc.content = some x → substrOf x (downloadText sampleDoc)) :=
  claimC9_amended sampleDoc

/-- C10: during a batch upload the corpus is not mutated until every document
has been attempted — every state the component exposes before the final one
carries the prior corpus unchanged — and the final state appends all the
successes in a single step after the existing documents, preserving the prior
documents (unchanged, in order) and the input order among the new successes:
the appended list corresponds pointwise, in order, to the successful inputs,
each document being the composition of the matching input's parsed response. -/
theorem claimC10 (s : SessionState) (files : List (String × ServiceCall))
    (h : files.isEmpty = false) :
    (∀ st ∈ (uploadStateTrace s files).dropLast, st.documents = s.documents) ∧
    (uploadStateTrace s files).getLastD s = handleFileUpload s files ∧
    (handleFileUpload s files).documents =
      s.documents ++ batchSuccesses s.nextId files ∧
    List.Forall₂ (fun (f : String × ServiceCall) (doc : ExtractedDocument) =>
        ∃ t d, f.2 = ServiceCall.ok t ∧ parseResponse t = some d ∧
          ∃ k, doc = composeDoc (genId k) f.1 d)
      (files.filter extractionSucceeds) (batchSuccesses s.nextId files) := by
  refine ⟨?_, ?_, handleFileUpload_documents s files h,
    batchSuccesses_forall₂ files s.nextId⟩
  · intro st hst
    simp only [uploadStateTrace, h, Bool.false_eq_true, if_false, ite_false] at hst
    rw [List.dropLast_concat] at hst
    rcases List.mem_cons.mp hst with rfl | hmid
    · rfl
    · obtain ⟨c, hc, rfl⟩ := List.mem_map.mp hmid
      rfl
  · simp only [uploadStateTrace, handleFileUpload, h, Bool.false_eq_true,
      if_false, ite_false]
    rw [List.getLastD_concat]

/-- C10 witness: the theorem applied to a concrete two-document batch with one
success and one failure. -/
theorem claimC10_witness :
    (∀ st ∈ (uploadStateTrace initialSession
        [("a.pdf", ServiceCall.ok ResponseText.empty),
          ("b.pdf", ServiceCall.failed)]).dropLast,
      st.documents = initialSession.documents) ∧
    (uploadStateTrace initialSession
        [("a.pdf", ServiceCall.ok ResponseText.empty),
          ("b.pdf", ServiceCall.failed)]).getLastD initialSession =
      handleFileUpload initialSession
        [("a.pdf", ServiceCall.ok ResponseText.empty),
          ("b.pdf", ServiceCall.failed)] ∧
    (handleFileUpload initialSession
        [("a.pdf", ServiceCall.ok ResponseText.empty),
          ("b.pdf", ServiceCall.failed)]).documents =
      initialSession.documents ++ batchSuccesses initialSession.nextId
        [("a.pdf", ServiceCall.ok ResponseText.empty),
          ("b.pdf", ServiceCall.failed)] ∧
    List.Forall₂ (fun (f : String × ServiceCall) (doc : ExtractedDocument) =>
        ∃ t d, f.2 = ServiceCall.ok t ∧ parseResponse t = some d ∧
          ∃ k, doc = composeDoc (genId k) f.1 d)
      ([("a.pdf", ServiceCall.ok ResponseText.empty),
          ("b.pdf", ServiceCall.failed)].filter extractionSucceeds)
      (batchSuccesses initialSession.nextId
        [("a.pdf", ServiceCall.ok ResponseText.empty),
          ("b.pdf", ServiceCall.failed)]) :=
  claimC10 initialSession [("a.pdf", ServiceCall.ok ResponseText.empty),
    ("b.pdf", ServiceCall.failed)] rfl
